import Mathlib

/-!
Verification of the cerberusrisk analytics engine
(`src/api/src/services/risk_engine.py` and `src/api/src/services/gips_service.py`).

Modelling conventions:
* Python floats are modelled as exact rationals (`ℚ`).
* Transcendental primitives that are irrational on floats are abstract
  function parameters: `sq` interprets `np.sqrt`, `lg` interprets `np.log`,
  `ex` interprets `np.exp`, `zscore` interprets `stats.norm.ppf(0.95)`.
  Every algebraic step around them is modelled exactly.
* `dict[str, ...]` inputs are association lists in insertion order with
  distinct keys; `histories.get(t)` returning `None` and an empty history
  are both modelled as the empty list (both are falsy in the source).
* The global numpy RNG is modelled as an explicit state `(seed, counter)`
  passed into `calculate_monte_carlo`; `np.random.seed(42)` replaces it.
  The individual draws are an abstract parameter `gauss` (a fixed function
  of the state), and `np.random.choice` is the abstract `choiceFn`.
* Python `round(x, 2)` is round-half-to-even at two decimals (`round2`).
* `None` results (the `InsufficientData` signal of the spec) are `Option.none`.
-/

/-- Round half to even of a rational to an integer, as Python round(). -/
def rhe (x : ℚ) : ℤ :=
  if x - ⌊x⌋ < 1/2 then ⌊x⌋
  else if 1/2 < x - ⌊x⌋ then ⌊x⌋ + 1
  else if ⌊x⌋ % 2 = 0 then ⌊x⌋ else ⌊x⌋ + 1

/-- Python round(x, 2): round half to even at two decimal places. -/
def round2 (x : ℚ) : ℚ := (rhe (x * 100) : ℚ) / 100

/-- np.mean. On the empty list this is 0/0 = 0; all uses are guarded. -/
def npMean (l : List ℚ) : ℚ := l.sum / l.length

/-- Population variance (np.std squared; np.std uses ddof=0). -/
def npVar (l : List ℚ) : ℚ := ((l.map fun x => (x - npMean l)^2).sum) / l.length

/-- np.min on a nonempty list (the sources only call it on nonempty data). -/
def listMin : List ℚ → ℚ
  | [] => 0
  | x :: xs => xs.foldl min x

/-- np.cumprod: running products, seeded with accumulator a. -/
def scanMul (a : ℚ) : List ℚ → List ℚ
  | [] => []
  | x :: xs => (a * x) :: scanMul (a * x) xs

/-- np.maximum.accumulate: running maxima, seeded with accumulator a. -/
def scanMax (a : ℚ) : List ℚ → List ℚ
  | [] => []
  | x :: xs => max a x :: scanMax (max a x) xs

/-- np.cumsum: running sums, seeded with accumulator a. -/
def scanAdd (a : ℚ) : List ℚ → List ℚ
  | [] => []
  | x :: xs => (a + x) :: scanAdd (a + x) xs

/-- np.maximum.accumulate over a whole list. -/
def runningMax (l : List ℚ) : List ℚ := scanMax (l.headD 0) l

/-- Python l[-n:] (for 0 < n; every use site has n ≥ 20). -/
def lastN {α : Type} (l : List α) (n : ℕ) : List α := l.drop (l.length - n)

/-- np.percentile with linear interpolation on an already sorted list:
h = q*(n-1)/100, result = s[⌊h⌋] + (h-⌊h⌋)*(s[⌊h⌋+1]-s[⌊h⌋]). -/
def interpSorted (s : List ℚ) (q : ℚ) : ℚ :=
  let h : ℚ := q * ((s.length : ℚ) - 1) / 100
  let i : ℕ := (⌊h⌋).toNat
  if i + 1 < s.length then
    s.getD i 0 + (h - (i : ℚ)) * (s.getD (i + 1) 0 - s.getD i 0)
  else s.getD i 0

/-- np.percentile(xs, q): sort ascending, then linearly interpolate. -/
def percentile (xs : List ℚ) (q : ℚ) : ℚ :=
  interpSorted (xs.insertionSort (· ≤ ·)) q

/-- Calendar date of an observation (the engine parses "%Y-%m-%d" strings). -/
structure GDate where
  year : ℕ
  month : ℕ
  day : ℕ
deriving DecidableEq

instance : Inhabited GDate := ⟨⟨0, 0, 0⟩⟩

/-- One history row `{"date": ..., "close": ...}`. -/
structure Bar where
  date : GDate
  close : ℚ
deriving DecidableEq

/-- `dict[str, list[dict]]` of per-instrument price histories. -/
abbrev Histories : Type := List (String × List Bar)

/-- `dict[str, float]` of portfolio weights, in insertion order. -/
abbrev Weights : Type := List (String × ℚ)

namespace RiskEngine

def TRADING_DAYS : ℚ := 252

def RISK_FREE_RATE : ℚ := 5 / 100

/-- `histories.get(t)`, with `None` and `[]` both modelled as `[]`. -/
def hGet (histories : Histories) (t : String) : List Bar :=
  (List.lookup t histories).getD []

/-- `RiskEngine.calculate_returns`: log returns of a price list,
`np.log(prices[1:] / prices[:-1])`. -/
def calculate_returns (lg : ℚ → ℚ) (prices : List ℚ) : List ℚ :=
  (prices.zip prices.tail).map fun ab => lg (ab.2 / ab.1)

/-- `[t for t in weights.keys() if t != "CASH" and histories.get(t)]`,
keeping each ticker's weight alongside it. -/
def eligible (histories : Histories) (weights : Weights) : Weights :=
  weights.filter fun p => p.1 != "CASH" && !(hGet histories p.1).isEmpty

/-- `min(len(histories[t]) for t in tickers)` (tickers nonempty). -/
def minCommonLen (histories : Histories) : Weights → ℕ
  | [] => 0
  | e :: es => es.foldl (fun m p => min m (hGet histories p.1).length)
      (hGet histories e.1).length

/-- `[d["close"] for d in histories[ticker][-min_len:]]`. -/
def closes (histories : Histories) (t : String) (n : ℕ) : List ℚ :=
  (lastN (hGet histories t) n).map fun b => b.close

/-- `weights_arr / weights_arr.sum()`. -/
def normalize (ws : List ℚ) : List ℚ := ws.map (· / ws.sum)

/-- `np.dot(weights_arr, returns_matrix)`: weighted sum of equal-length rows. -/
def dotRows : List ℚ → List (List ℚ) → List ℚ
  | [w], [r] => r.map (w * ·)
  | w :: ws, r :: rs => List.zipWith (· + ·) (r.map (w * ·)) (dotRows ws rs)
  | _, _ => []

/-- `RiskEngine.calculate_portfolio_returns`. `none` models the
`InsufficientData` outcome (`return None` in the source). -/
def calculate_portfolio_returns (lg : ℚ → ℚ) (histories : Histories)
    (weights : Weights) : Option (List ℚ) :=
  match eligible histories weights with
  | [] => none
  | e :: es =>
      let elig := e :: es
      let n := minCommonLen histories elig
      if n < 20 then none
      else
        some (dotRows (normalize (elig.map fun p => p.2))
          (elig.map fun p => calculate_returns lg (closes histories p.1 n)))

/-- Result record of `RiskEngine.calculate_risk_metrics`. -/
structure RiskMetrics where
  var_95 : ℚ
  var_99 : ℚ
  cvar_95 : ℚ
  volatility : ℚ
  sharpe : ℚ
  max_drawdown : ℚ
  current_drawdown : ℚ
deriving DecidableEq

/-- `RiskEngine.calculate_risk_metrics`. `sq` interprets `np.sqrt`, so
`np.std(returns)` is `sq (npVar returns)`. -/
def calculate_risk_metrics (sq : ℚ → ℚ) (returns : List ℚ) : RiskMetrics :=
  let volatility := sq (npVar returns) * sq (TRADING_DAYS : ℚ)
  let mean_return := npMean returns * (TRADING_DAYS : ℚ)
  let var_95 := -(percentile returns 5) * sq (TRADING_DAYS : ℚ)
  let var_99 := -(percentile returns 1) * sq (TRADING_DAYS : ℚ)
  let cvar_95 :=
    -(npMean (returns.filter fun x => x ≤ percentile returns 5)) * sq (TRADING_DAYS : ℚ)
  let sharpe := if 0 < volatility then (mean_return - RISK_FREE_RATE) / volatility else 0
  let cumulative := scanMul 1 (returns.map (1 + ·))
  let peak := runningMax cumulative
  let drawdown := List.zipWith (fun c p => (c - p) / p) cumulative peak
  let max_drawdown := -(listMin drawdown)
  let current_drawdown := if 0 < drawdown.length then -((drawdown.getLast?).getD 0) else 0
  ⟨round2 (var_95 * 100), round2 (var_99 * 100), round2 (cvar_95 * 100),
   round2 (volatility * 100), round2 sharpe, round2 (max_drawdown * 100),
   round2 (current_drawdown * 100)⟩

/-- Result record of one entry of `RiskEngine.calculate_risk_contributions`. -/
structure RiskContribution where
  ticker : String
  weight : ℚ
  volatility : ℚ
  marginal_var : ℚ
  component_var : ℚ
  pct_contribution : ℚ
deriving DecidableEq

/-- `sorted(..., key=lambda x: x.pct_contribution, reverse=True)` sorts by
descending pct_contribution. -/
def contribDesc (a b : RiskContribution) : Prop :=
  b.pct_contribution ≤ a.pct_contribution

instance : DecidableRel contribDesc := fun a b =>
  inferInstanceAs (Decidable (b.pct_contribution ≤ a.pct_contribution))

instance : IsTotal RiskContribution contribDesc :=
  ⟨fun a b => le_total b.pct_contribution a.pct_contribution⟩

instance : IsTrans RiskContribution contribDesc :=
  ⟨fun _ _ _ h1 h2 => le_trans h2 h1⟩

/-- One entry of `np.cov(returns_matrix)` (numpy default ddof=1). -/
def cov_entry (x y : List ℚ) : ℚ :=
  (((x.zip y).map fun p => (p.1 - npMean x) * (p.2 - npMean y)).sum) /
    ((x.length : ℚ) - 1)

/-- The per-ticker contribution records built inside
`RiskEngine.calculate_risk_contributions` before sorting: `rows` is the
aligned return matrix, `tickers` the eligible tickers, `ws` the
renormalized weights, `zscore` interprets `stats.norm.ppf(0.95)`. -/
def contribution_entries (sq : ℚ → ℚ) (zscore : ℚ) (rows : List (List ℚ))
    (tickers : List String) (ws : List ℚ) : List RiskContribution :=
  let k := ws.length
  let cov := fun i j => (TRADING_DAYS : ℚ) * cov_entry (rows.getD i []) (rows.getD j [])
  let sigw := fun i => ((List.range k).map fun j => cov i j * ws.getD j 0).sum
  let pvar := ((List.range k).map fun i => ws.getD i 0 * sigw i).sum
  let pvol := sq pvar
  (List.range k).map fun i =>
    let marginal := sigw i / pvol
    let comp := ws.getD i 0 * marginal
    ⟨tickers.getD i "", round2 (ws.getD i 0 * 100), round2 (sq (cov i i) * 100),
     round2 (marginal * zscore * 100), round2 (comp * zscore * 100),
     round2 (comp / pvol * 100)⟩

/-- `RiskEngine.calculate_risk_contributions`. -/
def calculate_risk_contributions (sq : ℚ → ℚ) (zscore : ℚ) (lg : ℚ → ℚ)
    (histories : Histories) (weights : Weights) : List RiskContribution :=
  match eligible histories weights with
  | [] => []
  | e :: es =>
      let elig := e :: es
      let n := minCommonLen histories elig
      if n < 20 then []
      else
        let rows := elig.map fun p => calculate_returns lg (closes histories p.1 n)
        let ws := normalize (elig.map fun p => p.2)
        List.insertionSort contribDesc
          (contribution_entries sq zscore rows (elig.map fun p => p.1) ws)

/-- `RiskEngine._get_aligned_returns_with_dates`: portfolio returns plus the
dates of the first eligible ticker's aligned window, dropping the first date. -/
def get_aligned_returns_with_dates (lg : ℚ → ℚ) (histories : Histories)
    (weights : Weights) : Option (List ℚ × List GDate) :=
  match eligible histories weights with
  | [] => none
  | e :: es =>
      let elig := e :: es
      let n := minCommonLen histories elig
      if n < 20 then none
      else
        let dates := ((lastN (hGet histories e.1) n).map fun b => b.date).tail
        some (dotRows (normalize (elig.map fun p => p.2))
          (elig.map fun p => calculate_returns lg (closes histories p.1 n)), dates)

/-- Result record of `RiskEngine.backtest_var`. -/
structure VarBacktest where
  dates : List GDate
  predicted_var : List ℚ
  realized_returns : List ℚ
  breaches : ℕ
  breach_rate : ℚ
deriving DecidableEq

/-- The `for i in range(window, len(returns))` loop of `backtest_var`,
with `fuel` the number of remaining iterations and `i` the loop index. -/
def btGo (returns : List ℚ) (dates : List GDate) (window : ℕ) (q : ℚ) :
    ℕ → ℕ → List GDate × List ℚ × List ℚ
  | 0, _ => ([], [], [])
  | fuel + 1, i =>
      let win := (returns.drop (i - window)).take window
      let var := -(percentile win q)
      let rest := btGo returns dates window q fuel (i + 1)
      (dates.getD i default :: rest.1,
       round2 (var * 100) :: rest.2.1,
       round2 (returns.getD i 0 * 100) :: rest.2.2)

/-- Body of `RiskEngine.backtest_var` after the length guard. -/
def backtest_core (returns : List ℚ) (dates : List GDate) (window : ℕ)
    (confidence : ℚ) : VarBacktest :=
  let q := (1 - confidence) * 100
  let r := btGo returns dates window q (returns.length - window) window
  let breaches := ((r.2.2.zip r.2.1).filter fun p => p.1 < -p.2).length
  let breach_rate := if r.2.2.isEmpty then 0 else (breaches : ℚ) / (r.2.2.length : ℚ)
  ⟨r.1, r.2.1, r.2.2, breaches, round2 (breach_rate * 100)⟩

/-- `RiskEngine.backtest_var`. -/
def backtest_var (lg : ℚ → ℚ) (histories : Histories) (weights : Weights)
    (window : ℕ) (confidence : ℚ) : Option VarBacktest :=
  match get_aligned_returns_with_dates lg histories weights with
  | none => none
  | some rd =>
      if rd.1.length < window + 1 then none
      else some (backtest_core rd.1 rd.2 window confidence)

/-- State of the global numpy RNG: (seed, number of draws consumed). -/
def RNGState : Type := ℕ × ℕ

/-- `np.random.seed(n)`. -/
def np_seed (n : ℕ) : RNGState := (n, 0)

/-- Fan chart record of `calculate_monte_carlo`. -/
structure MonteCarloFanChart where
  days : List ℕ
  p1 : List ℚ
  p5 : List ℚ
  p25 : List ℚ
  p50 : List ℚ
  p75 : List ℚ
  p95 : List ℚ
  p99 : List ℚ
deriving DecidableEq

/-- Result record of `RiskEngine.calculate_monte_carlo`. -/
structure MonteCarloResult where
  simulations : ℕ
  horizon : ℕ
  var_95 : ℚ
  var_99 : ℚ
  cvar_95 : ℚ
  cvar_99 : ℚ
  fan_chart : MonteCarloFanChart
  terminal_distribution : List ℚ
deriving DecidableEq

/-- `RiskEngine.calculate_monte_carlo`. `g` is the incoming global numpy RNG
state; the source executes `np.random.seed(42)`, replacing it. `gauss s k`
interprets the k-th standard-normal draw from state `s` (numpy fills the
(simulations, horizon) array in row-major order), `ex` interprets `np.exp`,
and `choiceFn s n k` interprets `np.random.choice(n, k, replace=False)`
executed in state `s`. -/
def calculate_monte_carlo (sq lg ex : ℚ → ℚ) (gauss : RNGState → ℕ → ℚ)
    (choiceFn : RNGState → ℕ → ℕ → List ℕ) (histories : Histories)
    (weights : Weights) (simulations horizon : ℕ) (g : RNGState) :
    Option MonteCarloResult :=
  match calculate_portfolio_returns lg histories weights with
  | none => none
  | some returns =>
      let mu := npMean returns
      let sigma := sq (npVar returns)
      let g0 := np_seed 42
      let path : ℕ → List ℚ := fun p =>
        let log_returns := (List.range horizon).map fun t =>
          (mu - sigma^2 / 2) + sigma * gauss g0 (p * horizon + t)
        let cumulative_returns := scanAdd 0 log_returns
        100 :: cumulative_returns.map fun c => 100 * ex c
      let paths := (List.range simulations).map path
      let col : ℕ → List ℚ := fun i => paths.map fun row => row.getD i 0
      let band : ℚ → List ℚ := fun q =>
        (List.range (horizon + 1)).map fun i => round2 (percentile (col i) q)
      let terminal_values := paths.map fun row => (row.getLast?).getD 0
      let var_95 := 100 - percentile terminal_values 5
      let var_99 := 100 - percentile terminal_values 1
      let cvar_95 :=
        100 - npMean (terminal_values.filter fun v => v ≤ percentile terminal_values 5)
      let cvar_99 :=
        100 - npMean (terminal_values.filter fun v => v ≤ percentile terminal_values 1)
      let g1 : RNGState := (g0.1, g0.2 + simulations * horizon)
      let sample_indices := choiceFn g1 simulations (min 500 simulations)
      let terminal_sample := sample_indices.map fun i => round2 (terminal_values.getD i 0)
      some ⟨simulations, horizon, round2 var_95, round2 var_99, round2 cvar_95,
        round2 cvar_99,
        ⟨List.range (horizon + 1), band 1, band 5, band 25, band 50, band 75,
         band 95, band 99⟩,
        terminal_sample⟩

end RiskEngine

namespace GIPSService

def TRADING_DAYS : ℚ := 252

/-- The month key `f"{dt.year}-{dt.month:02d}"` of an observation date. -/
def monthKey (d : GDate) : ℕ × ℕ := (d.year, d.month)

/-- Result record of one month in `GIPSService.calculate_period_returns`. -/
structure GIPSPeriodReturn where
  period : ℕ × ℕ
  start_date : GDate
  end_date : GDate
  twr_gross : ℚ
  twr_net : ℚ
  benchmark_return : ℚ
  excess_return : ℚ
deriving DecidableEq

instance : Inhabited GIPSPeriodReturn := ⟨⟨(0, 0), default, default, 0, 0, 0, 0⟩⟩

/-- The record emitted for a completed month when the key changes at loop
index `i`: values from `month_start_idx` (here `startIdx`) to `i - 1`. -/
def mkPeriod (pv : List ℚ) (pd : List GDate) (bench : List ℚ) (fee_bps : ℚ)
    (startIdx i : ℕ) (key : ℕ × ℕ) : GIPSPeriodReturn :=
  let start_val := pv.getD startIdx 0
  let end_val := pv.getD (i - 1) 0
  let gross := if 0 < start_val then end_val / start_val - 1 else 0
  let daily_fee := fee_bps / 10000 / (TRADING_DAYS : ℚ)
  let trading_days_in_month := ((i - startIdx : ℕ) : ℚ)
  let net := gross - daily_fee * trading_days_in_month
  let bench_return :=
    if !bench.isEmpty && decide (i - 1 < bench.length) then
      let bs := bench.getD startIdx 0
      let be := bench.getD (i - 1) 0
      if 0 < bs then be / bs - 1 else 0
    else 0
  ⟨key, pd.getD startIdx default, pd.getD (i - 1) default,
   round2 (gross * 100), round2 (net * 100), round2 (bench_return * 100),
   round2 ((gross - bench_return) * 100)⟩

/-- The record emitted after the loop for the final partial month:
values from `startIdx` to the end of the series. -/
def mkPeriodLast (pv : List ℚ) (pd : List GDate) (bench : List ℚ) (fee_bps : ℚ)
    (startIdx : ℕ) (key : ℕ × ℕ) : GIPSPeriodReturn :=
  let start_val := pv.getD startIdx 0
  let end_val := (pv.getLast?).getD 0
  let gross := if 0 < start_val then end_val / start_val - 1 else 0
  let daily_fee := fee_bps / 10000 / (TRADING_DAYS : ℚ)
  let trading_days := ((pv.length - startIdx : ℕ) : ℚ)
  let net := gross - daily_fee * trading_days
  let bench_return :=
    if !bench.isEmpty && decide (pv.length ≤ bench.length) then
      let bs := bench.getD startIdx 0
      let be := (bench.getLast?).getD 0
      if 0 < bs then be / bs - 1 else 0
    else 0
  ⟨key, pd.getD startIdx default, (pd.getLast?).getD default,
   round2 (gross * 100), round2 (net * 100), round2 (bench_return * 100),
   round2 ((gross - bench_return) * 100)⟩

/-- The `for i, dt in enumerate(parsed_dates)` loop of
`GIPSService.calculate_period_returns`, recursing over the dates not yet
visited. `i` is the loop index, `curKey` the key `current_month`, `startIdx`
the index `month_start_idx` (`month_start_bench_idx` is kept in lockstep with
it in the source, so a single variable models both). After the loop the
final partial month is emitted when `month_start_idx < len(portfolio_values) - 1`. -/
def periodGo (pv : List ℚ) (pd : List GDate) (bench : List ℚ) (fee_bps : ℚ) :
    List GDate → ℕ → ℕ × ℕ → ℕ → List GIPSPeriodReturn → List GIPSPeriodReturn
  | [], _, curKey, startIdx, acc =>
      if startIdx + 1 < pv.length then
        acc ++ [mkPeriodLast pv pd bench fee_bps startIdx curKey]
      else acc
  | d :: rest, i, curKey, startIdx, acc =>
      let key := monthKey d
      if key = curKey then periodGo pv pd bench fee_bps rest (i + 1) curKey startIdx acc
      else periodGo pv pd bench fee_bps rest (i + 1) key i
        (acc ++ [mkPeriod pv pd bench fee_bps startIdx i curKey])

/-- `GIPSService.calculate_period_returns`: monthly GIPS period returns. -/
def calculate_period_returns (portfolio_values : List ℚ) (dates : List GDate)
    (benchmark_prices : List ℚ) (fee_bps : ℚ) : List GIPSPeriodReturn :=
  if portfolio_values.isEmpty then []
  else
    match dates with
    | [] => []
    | d0 :: rest =>
        periodGo portfolio_values dates benchmark_prices fee_bps rest 1
          (monthKey d0) 0 []

/-- The (year, month) key of a month run of observations: the key shared by
all its dates (read off its first date). -/
def blockKey (b : List GDate) : ℕ × ℕ := monthKey (b.headD default)

/-- A list of month runs is a valid decomposition continuation after a run
with key `k` when each run's key differs from its predecessor's. -/
def keysChain (k : ℕ × ℕ) : List (List GDate) → Prop
  | [] => True
  | b :: rest => blockKey b ≠ k ∧ keysChain (blockKey b) rest

instance keysChainDec : (k : ℕ × ℕ) → (bs : List (List GDate)) →
    Decidable (keysChain k bs)
  | _, [] => isTrue True.intro
  | k, b :: rest =>
      haveI := keysChainDec (blockKey b) rest
      inferInstanceAs (Decidable (blockKey b ≠ k ∧ keysChain (blockKey b) rest))

/-- The records the month loop emits from state (i, curKey, startIdx) when
the remaining dates decompose into the month runs `blocks`: one completed
month per key change, then the final partial month subject to the
`month_start_idx < len(portfolio_values) - 1` guard of the source (so a
final month with a single observation produces no record). -/
def emitBlocks (pv : List ℚ) (pd : List GDate) (bench : List ℚ) (fee_bps : ℚ) :
    List (List GDate) → ℕ → ℕ × ℕ → ℕ → List GIPSPeriodReturn
  | [], _, curKey, startIdx =>
      if startIdx + 1 < pv.length then
        [mkPeriodLast pv pd bench fee_bps startIdx curKey]
      else []
  | b :: rest, i, curKey, startIdx =>
      mkPeriod pv pd bench fee_bps startIdx i curKey ::
        emitBlocks pv pd bench fee_bps rest (i + b.length) (blockKey b) i

/-- One point of `GIPSService.calculate_drawdown_series`. -/
structure GIPSDrawdownPoint where
  date : GDate
  drawdown : ℚ
deriving DecidableEq

/-- The loop of `calculate_drawdown_series`: carries `running_max` and the
minimum drawdown `max_dd`; emits one point (rounded) per value. -/
def ddGo : List (GDate × ℚ) → ℚ → ℚ → List GIPSDrawdownPoint × ℚ
  | [], _, mdd => ([], mdd)
  | (d, v) :: rest, rm, mdd =>
      let rm' := max rm v
      let dd := if 0 < rm' then v / rm' - 1 else 0
      let r := ddGo rest rm' (min mdd dd)
      (⟨d, round2 (dd * 100)⟩ :: r.1, r.2)

/-- `GIPSService.calculate_drawdown_series`: returns the drawdown point
series, `round(max_dd * 100, 2)` and the last point's (already rounded)
drawdown. -/
def calculate_drawdown_series (portfolio_values : List ℚ) (dates : List GDate) :
    List GIPSDrawdownPoint × ℚ × ℚ :=
  match portfolio_values with
  | [] => ([], 0, 0)
  | v0 :: _ =>
      let r := ddGo (dates.zip portfolio_values) v0 0
      let current := ((r.1.getLast?).map fun p => p.drawdown).getD 0
      (r.1, round2 (r.2 * 100), current)

end GIPSService

/-- The compounding factors `1 + daily_return` of a value series:
entry i is `v[i+1] / v[i]`. -/
def daily_factors (pv : List ℚ) : List ℚ :=
  (pv.zip pv.tail).map fun ab => ab.2 / ab.1

namespace RiskSpec

/-!
Definitions written from the specification text (section 4.2, 4.3), to be
compared with the source-derived definitions above.
-/

/-- Spec section 4.2: volatility = std(r) * sqrt(252). -/
def volatility (sq : ℚ → ℚ) (r : List ℚ) : ℚ := sq (npVar r) * sq 252

/-- Spec section 4.2: mean_annual = mean(r) * 252. -/
def mean_annual (r : List ℚ) : ℚ := npMean r * 252

/-- Spec section 4.2: var_95 = -percentile(r, 5) * sqrt(252). -/
def var_95 (sq : ℚ → ℚ) (r : List ℚ) : ℚ := -(percentile r 5) * sq 252

/-- Spec section 4.2: var_99 = -percentile(r, 1) * sqrt(252). -/
def var_99 (sq : ℚ → ℚ) (r : List ℚ) : ℚ := -(percentile r 1) * sq 252

/-- Spec section 4.2: cvar_95 = -mean(r[r <= percentile(r,5)]) * sqrt(252). -/
def cvar_95 (sq : ℚ → ℚ) (r : List ℚ) : ℚ :=
  -(npMean (r.filter fun x => x ≤ percentile r 5)) * sq 252

/-- Spec section 4.2: sharpe = (mean_annual - 0.05) / volatility, 0 if
volatility is 0. -/
def sharpe (sq : ℚ → ℚ) (r : List ℚ) : ℚ :=
  if volatility sq r = 0 then 0 else (mean_annual r - 5 / 100) / volatility sq r

/-- Spec section 4.3: Sigma = cov * 252, portfolio_vol = sqrt(w' Sigma w),
marginal_var i = (Sigma w) i / portfolio_vol, component_var i =
w i * marginal_var i, both scaled by the 95% one-tailed z-score in the
reported record, pct_contribution i = component_var i / portfolio_vol * 100. -/
def contributions (sq : ℚ → ℚ) (zscore : ℚ) (rows : List (List ℚ))
    (tickers : List String) (ws : List ℚ) : List RiskEngine.RiskContribution :=
  let k := ws.length
  let sigma := fun i j => 252 * RiskEngine.cov_entry (rows.getD i []) (rows.getD j [])
  let sigma_w := fun i => ((List.range k).map fun j => sigma i j * ws.getD j 0).sum
  let portfolio_vol := sq (((List.range k).map fun i => ws.getD i 0 * sigma_w i).sum)
  let marginal_var := fun i => sigma_w i / portfolio_vol
  let component_var := fun i => ws.getD i 0 * marginal_var i
  (List.range k).map fun i =>
    ⟨tickers.getD i "", round2 (ws.getD i 0 * 100), round2 (sq (sigma i i) * 100),
     round2 (marginal_var i * zscore * 100), round2 (component_var i * zscore * 100),
     round2 (component_var i / portfolio_vol * 100)⟩

end RiskSpec

/-! ### Concrete data for witnesses and counterexamples -/

def c1_returns : List ℚ := [1/10, -1/10, 1/20]

def c4_histories : Histories :=
  [("AAA", (List.range 22).map fun k => ⟨⟨2024, 1, k⟩, 1⟩)]

def c4_weights : Weights := [("AAA", 1)]

def c4_returns : List ℚ := List.replicate 21 1

def c4_dates : List GDate := ((List.range 22).map fun k => (⟨2024, 1, k⟩ : GDate)).tail

def c5_values : List ℚ := [100, 110]

def c5cex_values : List ℚ := [100, 110, 120]

def c5cex_dates : List GDate := [⟨2024, 1, 1⟩, ⟨2024, 1, 2⟩, ⟨2024, 2, 1⟩]

def c5w_values : List ℚ := [100, 110, 120, 130]

def c5w_b0 : List GDate := [⟨2024, 1, 1⟩, ⟨2024, 1, 2⟩]

def c5w_b1 : List GDate := [⟨2024, 2, 1⟩, ⟨2024, 2, 2⟩]

def c6_histories : Histories :=
  [("A", List.replicate 20 ⟨⟨2024, 1, 1⟩, 1⟩),
   ("B", List.replicate 20 ⟨⟨2024, 1, 1⟩, 1⟩)]

def c6_weights : Weights := [("A", 3/5), ("B", 2/5)]

def c7_returns : List ℚ := List.replicate 19 (1/100) ++ [2/100]

def c7w_returns : List ℚ := List.replicate 19 (1/100) ++ [-1/50]

def c8_histories : Histories :=
  [("A", List.replicate 20 ⟨⟨2024, 1, 1⟩, 1⟩),
   ("B", List.replicate 20 ⟨⟨2024, 1, 1⟩, 1⟩)]

def c8_weights_bad : Weights := [("A", 1), ("B", -1)]

def c8_weights_good : Weights := [("A", 1), ("B", 1)]

/-- A return series is degenerate when all entries equal the first one. -/
def allSame (l : List ℚ) : Prop := ∀ x ∈ l, x = l.headD 0

instance : DecidablePred allSame := fun l =>
  List.decidableBAll (fun x => x = l.headD 0) l

def c10_returns : List ℚ := [1/10, -1/10]

def c10cex_returns : List ℚ := [-2, 1]

def c10_values : List ℚ := [100, 90, 95]

def c10_dates : List GDate := [⟨2024, 1, 1⟩, ⟨2024, 1, 2⟩, ⟨2024, 1, 3⟩]

/-! ### Helper lemmas: rounding -/

theorem floor_le_rhe (x : ℚ) : ⌊x⌋ ≤ rhe x := by
  unfold rhe; split_ifs <;> omega

theorem rhe_le_floor_add_one (x : ℚ) : rhe x ≤ ⌊x⌋ + 1 := by
  unfold rhe; split_ifs <;> omega

theorem rhe_mono {x y : ℚ} (h : x ≤ y) : rhe x ≤ rhe y := by
  have hf : ⌊x⌋ ≤ ⌊y⌋ := Int.floor_le_floor h
  rcases eq_or_lt_of_le hf with heq | hlt
  · have hfx : (⌊x⌋ : ℚ) ≤ x := Int.floor_le x
    have hfy : (⌊y⌋ : ℚ) ≤ y := Int.floor_le y
    have hfrac : x - (⌊x⌋ : ℚ) ≤ y - (⌊y⌋ : ℚ) := by
      rw [← heq]; linarith
    unfold rhe
    rw [← heq]
    split_ifs <;> first | omega | (exfalso; linarith)
  · calc rhe x ≤ ⌊x⌋ + 1 := rhe_le_floor_add_one x
      _ ≤ ⌊y⌋ := by omega
      _ ≤ rhe y := floor_le_rhe y

theorem rhe_zero : rhe 0 = 0 := by
  unfold rhe; norm_num

theorem round2_mono {x y : ℚ} (h : x ≤ y) : round2 x ≤ round2 y := by
  unfold round2
  have := rhe_mono (mul_le_mul_of_nonneg_right h (by norm_num : (0:ℚ) ≤ 100))
  have h2 : ((rhe (x * 100) : ℚ)) ≤ (rhe (y * 100) : ℚ) := by exact_mod_cast this
  linarith

theorem round2_nonneg {x : ℚ} (h : 0 ≤ x) : 0 ≤ round2 x := by
  have h0 : round2 0 = 0 := by unfold round2; rw [zero_mul, rhe_zero]; norm_num
  calc (0:ℚ) = round2 0 := h0.symm
    _ ≤ round2 x := round2_mono h

theorem round2_nonpos {x : ℚ} (h : x ≤ 0) : round2 x ≤ 0 := by
  have h0 : round2 0 = 0 := by unfold round2; rw [zero_mul, rhe_zero]; norm_num
  calc round2 x ≤ round2 0 := round2_mono h
    _ = 0 := h0

/-! ### Helper lemmas: means and sums -/

theorem npMean_le {l : List ℚ} {c : ℚ} (hne : l ≠ []) (h : ∀ x ∈ l, x ≤ c) :
    npMean l ≤ c := by
  have hlen : 0 < l.length := List.length_pos.mpr hne
  have hsum : l.sum ≤ (l.length : ℚ) * c := by
    have := List.sum_le_card_nsmul l c h
    rwa [nsmul_eq_mul] at this
  have hlenq : (0:ℚ) < (l.length : ℚ) := by exact_mod_cast hlen
  rw [npMean, div_le_iff₀ hlenq]
  linarith

theorem sum_map_div (l : List ℚ) (c : ℚ) : (l.map (· / c)).sum = l.sum / c := by
  induction l with
  | nil => simp
  | cons x xs ih => simp [ih, add_div]

/-! ### Helper lemmas: sorted lists and percentile interpolation -/

theorem sorted_get_le {s : List ℚ} (hs : s.Sorted (· ≤ ·)) {i j : ℕ}
    (hij : i ≤ j) (hj : j < s.length) :
    s.get ⟨i, lt_of_le_of_lt hij hj⟩ ≤ s.get ⟨j, hj⟩ := by
  rcases lt_or_eq_of_le hij with h' | h'
  · exact List.pairwise_iff_get.mp hs ⟨i, _⟩ ⟨j, hj⟩ h'
  · subst h'; exact le_refl _

/-- The interpolation index of `interpSorted`. -/
def interpIdx (s : List ℚ) (q : ℚ) : ℕ :=
  (⌊q * ((s.length : ℚ) - 1) / 100⌋).toNat

theorem interpIdx_lt {s : List ℚ} {q : ℚ} (hne : s ≠ []) (hq0 : 0 ≤ q)
    (hq1 : q ≤ 100) : interpIdx s q < s.length := by
  have hlen : 0 < s.length := List.length_pos.mpr hne
  set h : ℚ := q * ((s.length : ℚ) - 1) / 100 with hh
  have hn1 : (0:ℚ) ≤ (s.length : ℚ) - 1 := by
    have : (1:ℚ) ≤ (s.length : ℚ) := by exact_mod_cast hlen
    linarith
  have hub : h ≤ (s.length : ℚ) - 1 := by
    rw [hh, div_le_iff₀ (by norm_num : (0:ℚ) < 100)]
    nlinarith
  have hfl : (⌊h⌋ : ℚ) ≤ (s.length : ℚ) - 1 := le_trans (Int.floor_le h) hub
  have : ⌊h⌋ ≤ (s.length : ℤ) - 1 := by exact_mod_cast hfl
  unfold interpIdx
  rw [← hh]
  omega

theorem interpIdx_cast {s : List ℚ} {q : ℚ} (hne : s ≠ []) (hq0 : 0 ≤ q) :
    ((interpIdx s q : ℕ) : ℚ) = (⌊q * ((s.length : ℚ) - 1) / 100⌋ : ℚ) := by
  have hlen : 0 < s.length := List.length_pos.mpr hne
  have hn1 : (0:ℚ) ≤ (s.length : ℚ) - 1 := by
    have : (1:ℚ) ≤ (s.length : ℚ) := by exact_mod_cast hlen
    linarith
  have hpos : 0 ≤ q * ((s.length : ℚ) - 1) / 100 :=
    div_nonneg (mul_nonneg hq0 hn1) (by norm_num)
  have : (0:ℤ) ≤ ⌊q * ((s.length : ℚ) - 1) / 100⌋ := Int.floor_nonneg.mpr hpos
  unfold interpIdx
  exact_mod_cast congrArg Int.cast (Int.toNat_of_nonneg this)

theorem sorted_getD_le {s : List ℚ} (hs : s.Sorted (· ≤ ·)) {i j : ℕ}
    (hij : i ≤ j) (hj : j < s.length) : s.getD i 0 ≤ s.getD j 0 := by
  have hi : i < s.length := lt_of_le_of_lt hij hj
  rw [List.getD_eq_get? , List.getD_eq_get? , List.get?_eq_get hi,
    List.get?_eq_get hj]
  exact sorted_get_le hs hij hj

theorem interpSorted_eq_of_lt {s : List ℚ} {q : ℚ}
    (h : interpIdx s q + 1 < s.length) :
    interpSorted s q =
      s.getD (interpIdx s q) 0 +
        (q * ((s.length : ℚ) - 1) / 100 - (interpIdx s q : ℚ)) *
          (s.getD (interpIdx s q + 1) 0 - s.getD (interpIdx s q) 0) := by
  unfold interpSorted interpIdx at *
  simp only [if_pos h]

theorem interpSorted_eq_of_ge {s : List ℚ} {q : ℚ}
    (h : ¬ interpIdx s q + 1 < s.length) :
    interpSorted s q = s.getD (interpIdx s q) 0 := by
  unfold interpSorted interpIdx at *
  simp only [if_neg h]

theorem idx_le_arg {s : List ℚ} {q : ℚ} (hne : s ≠ []) (hq0 : 0 ≤ q) :
    ((interpIdx s q : ℕ) : ℚ) ≤ q * ((s.length : ℚ) - 1) / 100 := by
  rw [interpIdx_cast hne hq0]
  exact Int.floor_le _

theorem arg_lt_idx_add_one {s : List ℚ} {q : ℚ} (hne : s ≠ []) (hq0 : 0 ≤ q) :
    q * ((s.length : ℚ) - 1) / 100 < ((interpIdx s q : ℕ) : ℚ) + 1 := by
  rw [interpIdx_cast hne hq0]
  exact Int.lt_floor_add_one _

theorem getD_le_interpSorted {s : List ℚ} {q : ℚ} (hs : s.Sorted (· ≤ ·))
    (hne : s ≠ []) (hq0 : 0 ≤ q) (hq1 : q ≤ 100) {j : ℕ}
    (hji : j ≤ interpIdx s q) : s.getD j 0 ≤ interpSorted s q := by
  have hi : interpIdx s q < s.length := interpIdx_lt hne hq0 hq1
  have ha : s.getD j 0 ≤ s.getD (interpIdx s q) 0 := sorted_getD_le hs hji hi
  by_cases hcase : interpIdx s q + 1 < s.length
  · rw [interpSorted_eq_of_lt hcase]
    have hfrac : 0 ≤ q * ((s.length : ℚ) - 1) / 100 - ((interpIdx s q : ℕ) : ℚ) := by
      have := idx_le_arg hne hq0
      linarith
    have hab : s.getD (interpIdx s q) 0 ≤ s.getD (interpIdx s q + 1) 0 :=
      sorted_getD_le hs (Nat.le_succ _) hcase
    nlinarith
  · rw [interpSorted_eq_of_ge hcase]
    exact ha

theorem interpSorted_le_getD {s : List ℚ} {q : ℚ} (hs : s.Sorted (· ≤ ·))
    (hne : s ≠ []) (hq0 : 0 ≤ q) (hq1 : q ≤ 100) {j : ℕ}
    (hj : j < s.length) (hij : interpIdx s q + 1 ≤ j) :
    interpSorted s q ≤ s.getD j 0 := by
  have hcase : interpIdx s q + 1 < s.length := lt_of_le_of_lt (le_refl _)
    (lt_of_le_of_lt hij hj) |>.trans_le (le_refl _)
  have hb : s.getD (interpIdx s q + 1) 0 ≤ s.getD j 0 := sorted_getD_le hs hij hj
  rw [interpSorted_eq_of_lt hcase]
  have hfrac : q * ((s.length : ℚ) - 1) / 100 - ((interpIdx s q : ℕ) : ℚ) < 1 := by
    have := arg_lt_idx_add_one hne hq0
    linarith
  have hab : s.getD (interpIdx s q) 0 ≤ s.getD (interpIdx s q + 1) 0 :=
    sorted_getD_le hs (Nat.le_succ _) hcase
  nlinarith

theorem interpIdx_mono {s : List ℚ} (hne : s ≠ []) {q1 q2 : ℚ} (h0 : 0 ≤ q1)
    (h12 : q1 ≤ q2) : interpIdx s q1 ≤ interpIdx s q2 := by
  have hlen : 0 < s.length := List.length_pos.mpr hne
  have hn1 : (0:ℚ) ≤ (s.length : ℚ) - 1 := by
    have : (1:ℚ) ≤ (s.length : ℚ) := by exact_mod_cast hlen
    linarith
  have harg : q1 * ((s.length : ℚ) - 1) / 100 ≤ q2 * ((s.length : ℚ) - 1) / 100 := by
    gcongr
  exact Int.toNat_le_toNat (Int.floor_le_floor harg)

theorem interpSorted_mono {s : List ℚ} (hs : s.Sorted (· ≤ ·)) (hne : s ≠ [])
    {q1 q2 : ℚ} (h0 : 0 ≤ q1) (h12 : q1 ≤ q2) (h2 : q2 ≤ 100) :
    interpSorted s q1 ≤ interpSorted s q2 := by
  have h0' : 0 ≤ q2 := le_trans h0 h12
  have h1' : q1 ≤ 100 := le_trans h12 h2
  have hidx : interpIdx s q1 ≤ interpIdx s q2 := interpIdx_mono hne h0 h12
  rcases eq_or_lt_of_le hidx with heq | hlt
  · by_cases hcase : interpIdx s q1 + 1 < s.length
    · rw [interpSorted_eq_of_lt hcase, interpSorted_eq_of_lt (heq ▸ hcase), ← heq]
      have hab : s.getD (interpIdx s q1) 0 ≤ s.getD (interpIdx s q1 + 1) 0 :=
        sorted_getD_le hs (Nat.le_succ _) hcase
      have harg : q1 * ((s.length : ℚ) - 1) / 100 ≤ q2 * ((s.length : ℚ) - 1) / 100 := by
        have hlen : 0 < s.length := List.length_pos.mpr hne
        have hn1 : (0:ℚ) ≤ (s.length : ℚ) - 1 := by
          have : (1:ℚ) ≤ (s.length : ℚ) := by exact_mod_cast hlen
          linarith
        gcongr
      nlinarith
    · rw [interpSorted_eq_of_ge hcase, interpSorted_eq_of_ge (heq ▸ hcase), ← heq]
  · calc interpSorted s q1
        ≤ s.getD (interpIdx s q1 + 1) 0 := by
          refine interpSorted_le_getD hs hne h0 h1' ?_ (le_refl _)
          exact lt_of_le_of_lt hlt (interpIdx_lt hne h0' h2)
      _ ≤ interpSorted s q2 := by
          exact getD_le_interpSorted hs hne h0' h2 hlt

theorem sorted_of_percentile (xs : List ℚ) :
    (xs.insertionSort (· ≤ ·)).Sorted (· ≤ ·) :=
  List.sorted_insertionSort (· ≤ ·) xs

theorem insertionSort_ne_nil {xs : List ℚ} (hne : xs ≠ []) :
    xs.insertionSort (· ≤ ·) ≠ [] := by
  intro h
  apply hne
  have := (List.perm_insertionSort (· ≤ ·) xs).length_eq
  rw [h] at this
  exact List.length_eq_zero.mp this.symm

theorem percentile_mono {xs : List ℚ} (hne : xs ≠ []) {q1 q2 : ℚ}
    (h0 : 0 ≤ q1) (h12 : q1 ≤ q2) (h2 : q2 ≤ 100) :
    percentile xs q1 ≤ percentile xs q2 :=
  interpSorted_mono (sorted_of_percentile xs) (insertionSort_ne_nil hne) h0 h12 h2

theorem exists_mem_le_percentile {xs : List ℚ} (hne : xs ≠ []) {q : ℚ}
    (hq0 : 0 ≤ q) (hq1 : q ≤ 100) : ∃ x ∈ xs, x ≤ percentile xs q := by
  have hs := sorted_of_percentile xs
  have hne' := @insertionSort_ne_nil xs hne
  have hlen : 0 < (xs.insertionSort (· ≤ ·)).length := List.length_pos.mpr hne'
  refine ⟨(xs.insertionSort (· ≤ ·)).getD 0 0, ?_, ?_⟩
  · have hmem : (xs.insertionSort (· ≤ ·)).getD 0 0 ∈ xs.insertionSort (· ≤ ·) := by
      rw [List.getD_eq_get? , List.get?_eq_get hlen]
      exact List.get_mem _ _ _
    exact (List.perm_insertionSort (· ≤ ·) xs).mem_iff.mp hmem
  · exact getD_le_interpSorted hs hne' hq0 hq1 (Nat.zero_le _)

theorem mean_tail_le_percentile {xs : List ℚ} (hne : xs ≠ []) {q : ℚ}
    (hq0 : 0 ≤ q) (hq1 : q ≤ 100) :
    npMean (xs.filter fun x => x ≤ percentile xs q) ≤ percentile xs q := by
  obtain ⟨x, hx, hxle⟩ := exists_mem_le_percentile hne hq0 hq1
  have hmem : x ∈ xs.filter fun x => x ≤ percentile xs q :=
    List.mem_filter.mpr ⟨hx, by simpa using hxle⟩
  refine npMean_le (fun h => ?_) (fun y hy => ?_)
  · rw [h] at hmem; exact absurd hmem (List.not_mem_nil x)
  · have := (List.mem_filter.mp hy).2
    simpa using this

/-! ### Helper lemmas: minima, running products and drawdowns -/

theorem foldl_min_le_init (xs : List ℚ) (a : ℚ) : xs.foldl min a ≤ a := by
  induction xs generalizing a with
  | nil => exact le_refl a
  | cons x xs ih => exact le_trans (ih (min a x)) (min_le_left a x)

theorem listMin_le_head (x : ℚ) (xs : List ℚ) : listMin (x :: xs) ≤ x :=
  foldl_min_le_init xs x

theorem scanMul_pos (l : List ℚ) (a : ℚ) (ha : 0 < a) (hl : ∀ x ∈ l, 0 < x) :
    ∀ y ∈ scanMul a l, 0 < y := by
  induction l generalizing a with
  | nil => intro y hy; exact absurd hy (List.not_mem_nil y)
  | cons x xs ih =>
      intro y hy
      have hax : 0 < a * x := mul_pos ha (hl x (List.mem_cons_self x xs))
      rcases List.mem_cons.mp hy with h | h
      · rw [h]; exact hax
      · exact ih (a * x) hax (fun z hz => hl z (List.mem_cons_of_mem x hz)) y h

theorem zip_scanMax_nonpos (l : List ℚ) (a : ℚ) (hl : ∀ x ∈ l, 0 < x) :
    ∀ z ∈ List.zipWith (fun c p => (c - p) / p) l (scanMax a l), z ≤ 0 := by
  induction l generalizing a with
  | nil => intro z hz; exact absurd hz (List.not_mem_nil z)
  | cons x xs ih =>
      intro z hz
      have hx : 0 < x := hl x (List.mem_cons_self x xs)
      have hm : 0 < max a x := lt_of_lt_of_le hx (le_max_right a x)
      rcases List.mem_cons.mp hz with h | h
      · rw [h]
        apply div_nonpos_of_nonpos_of_nonneg
        · have : x ≤ max a x := le_max_right a x
          linarith
        · exact le_of_lt hm
      · exact ih (max a x) (fun y hy => hl y (List.mem_cons_of_mem x hy)) z h

theorem ddGo_mdd_le (l : List (GDate × ℚ)) (rm m : ℚ) :
    (GIPSService.ddGo l rm m).2 ≤ m := by
  induction l generalizing rm m with
  | nil => exact le_refl m
  | cons p rest ih =>
      obtain ⟨d, v⟩ := p
      simp only [GIPSService.ddGo]
      exact le_trans (ih _ _) (min_le_left _ _)

theorem ddGo_points_nonpos (l : List (GDate × ℚ)) (rm m : ℚ) :
    ∀ pt ∈ (GIPSService.ddGo l rm m).1, pt.drawdown ≤ 0 := by
  induction l generalizing rm m with
  | nil => intro pt hpt; exact absurd hpt (List.not_mem_nil pt)
  | cons p rest ih =>
      obtain ⟨d, v⟩ := p
      intro pt hpt
      simp only [GIPSService.ddGo] at hpt
      rcases List.mem_cons.mp hpt with h | h
      · rw [h]
        apply round2_nonpos
        by_cases hm : 0 < max rm v
        · rw [if_pos hm]
          have hdd : v / max rm v ≤ 1 := (div_le_one hm).mpr (le_max_right rm v)
          nlinarith
        · rw [if_neg hm]
          norm_num
      · exact ih _ _ pt h

theorem getLast?_mem {α : Type} {l : List α} {a : α} (h : l.getLast? = some a) :
    a ∈ l := by
  cases l with
  | nil => simp at h
  | cons x xs =>
      have hne : x :: xs ≠ [] := by simp
      rw [List.getLast?_eq_getLast _ hne] at h
      have hmem := List.getLast_mem hne
      exact (Option.some_inj.mp h) ▸ hmem

/-! ### Helper lemmas: the GIPS monthly grouping loop -/

theorem periodGo_skip (pv : List ℚ) (pd : List GDate) (bench : List ℚ)
    (fee : ℚ) (ds rest : List GDate) (curKey : ℕ × ℕ) (startIdx : ℕ)
    (acc : List GIPSService.GIPSPeriodReturn)
    (h : ∀ d ∈ ds, GIPSService.monthKey d = curKey) : ∀ i,
    GIPSService.periodGo pv pd bench fee (ds ++ rest) i curKey startIdx acc =
      GIPSService.periodGo pv pd bench fee rest (i + ds.length) curKey startIdx acc := by
  induction ds with
  | nil => intro i; simp
  | cons d ds ih =>
      intro i
      have hd : GIPSService.monthKey d = curKey := h d (List.mem_cons_self d ds)
      have hstep : GIPSService.periodGo pv pd bench fee ((d :: ds) ++ rest) i
          curKey startIdx acc =
          GIPSService.periodGo pv pd bench fee (ds ++ rest) (i + 1) curKey startIdx acc := by
        simp only [List.cons_append, GIPSService.periodGo]
        rw [if_pos hd]
        rfl
      rw [hstep, ih (fun x hx => h x (List.mem_cons_of_mem d hx)) (i + 1)]
      rw [show i + 1 + ds.length = i + (d :: ds).length from by
        simp only [List.length_cons]; omega]

theorem prod_daily_factors (pv : List ℚ) (hne : pv ≠ [])
    (hnz : ∀ v ∈ pv, v ≠ 0) :
    (daily_factors pv).prod = ((pv.getLast?).getD 0) / pv.headD 0 := by
  induction pv with
  | nil => exact absurd rfl hne
  | cons x xs ih =>
      cases xs with
      | nil =>
          simp [daily_factors, div_self (hnz x (List.mem_cons_self x []))]
      | cons y ys =>
          have hx : x ≠ 0 := hnz x (List.mem_cons_self _ _)
          have hy : y ≠ 0 := hnz y (List.mem_cons_of_mem _ (List.mem_cons_self _ _))
          have hstep : daily_factors (x :: y :: ys) =
              (y / x) :: daily_factors (y :: ys) := by
            simp [daily_factors]
          have hih := ih (by simp)
            (fun v hv => hnz v (List.mem_cons_of_mem x hv))
          rw [hstep, List.prod_cons, hih]
          have hlast : ((x :: y :: ys).getLast?).getD 0 = ((y :: ys).getLast?).getD 0 := by
            rw [List.getLast?_cons_cons]
          rw [hlast]
          simp only [List.headD_cons]
          rw [div_mul_div_comm]
          rw [mul_comm y ((y :: ys).getLast?.getD 0)]
          exact mul_div_mul_right _ _ hy

/-! ### Helper lemmas: the backtest loop -/

theorem btGo_eq (returns : List ℚ) (dates : List GDate) (window : ℕ) (q : ℚ) :
    ∀ (fuel i : ℕ),
    RiskEngine.btGo returns dates window q fuel i =
      ((List.range fuel).map fun j => dates.getD (i + j) default,
       (List.range fuel).map fun j =>
         round2 (-(percentile ((returns.drop (i + j - window)).take window) q) * 100),
       (List.range fuel).map fun j => round2 (returns.getD (i + j) 0 * 100)) := by
  intro fuel
  induction fuel with
  | zero => intro i; simp [RiskEngine.btGo]
  | succ n ih =>
      intro i
      rw [RiskEngine.btGo, ih (i + 1)]
      simp only [List.range_succ_eq_map, List.map_cons, List.map_map, Nat.add_zero]
      refine congrArg₂ Prod.mk ?_ (congrArg₂ Prod.mk ?_ ?_) <;>
        · refine congrArg₂ List.cons rfl ?_
          refine List.map_congr_left fun j hj => ?_
          simp only [Function.comp_apply, Nat.succ_eq_add_one]
          rw [show i + (j + 1) = i + 1 + j from by omega]

theorem filter_zip_map_length (l : List ℕ) (f g : ℕ → ℚ) :
    (((l.map f).zip (l.map g)).filter fun p => p.1 < -p.2).length =
      (l.filter fun j => f j < -(g j)).length := by
  induction l with
  | nil => simp
  | cons a l ih =>
      rw [List.map_cons, List.map_cons, List.zip_cons_cons, List.filter_cons,
        List.filter_cons]
      by_cases h : f a < -(g a)
      · rw [if_pos (by simpa using h), if_pos (by simpa using h)]
        simp only [List.length_cons, ih]
      · rw [if_neg (by simpa using h), if_neg (by simpa using h)]
        exact ih

/-! ### Helper lemmas: shape of calculate_returns -/

theorem calculate_returns_length (lg : ℚ → ℚ) (p : List ℚ) :
    (RiskEngine.calculate_returns lg p).length = p.length - 1 := by
  cases p with
  | nil => simp [RiskEngine.calculate_returns]
  | cons x xs =>
      simp only [RiskEngine.calculate_returns, List.length_map, List.length_zip,
        List.tail_cons, List.length_cons]
      omega

theorem calculate_returns_getD (lg : ℚ → ℚ) (p : List ℚ) (i : ℕ)
    (h : i + 1 < p.length) :
    (RiskEngine.calculate_returns lg p).getD i 0 =
      lg (p.getD (i + 1) 0 / p.getD i 0) := by
  induction p generalizing i with
  | nil => simp at h
  | cons a rest ih =>
      cases rest with
      | nil => simp at h
      | cons b t =>
          have hstep : RiskEngine.calculate_returns lg (a :: b :: t) =
              lg (b / a) :: RiskEngine.calculate_returns lg (b :: t) := rfl
          cases i with
          | zero => rw [hstep]; simp
          | succ i =>
              rw [hstep]
              simp only [List.getD_cons_succ]
              exact ih i (by simp at h ⊢; omega)

/-! ### Claims -/

/-- C1: for every non-empty return series r, `RiskEngine.calculate_risk_metrics`
returns volatility = std(r)*sqrt(252)*100, var_95 = -percentile(r,5)*sqrt(252)*100
(linear-interpolation percentile), var_99 analogously at the 1st percentile,
cvar_95 = -mean of the r-values below the 5th percentile times sqrt(252)*100,
and sharpe = (mean(r)*252 - 0.05)/volatility with sharpe = 0 when volatility
is 0; all percentage fields rounded to 2 decimals only at the result boundary.
The hypotheses state that the abstract sqrt is nonnegative, as the real
np.sqrt is. -/
theorem claim_C1_risk_metrics_formulas (sq : ℚ → ℚ) (r : List ℚ) (hne : r ≠ [])
    (hstd : 0 ≤ sq (npVar r)) (hann : 0 ≤ sq 252) :
    (RiskEngine.calculate_risk_metrics sq r).volatility =
      round2 (RiskSpec.volatility sq r * 100) ∧
    (RiskEngine.calculate_risk_metrics sq r).var_95 =
      round2 (RiskSpec.var_95 sq r * 100) ∧
    (RiskEngine.calculate_risk_metrics sq r).var_99 =
      round2 (RiskSpec.var_99 sq r * 100) ∧
    (RiskEngine.calculate_risk_metrics sq r).cvar_95 =
      round2 (RiskSpec.cvar_95 sq r * 100) ∧
    (RiskEngine.calculate_risk_metrics sq r).sharpe =
      round2 (RiskSpec.sharpe sq r) := by
  refine ⟨rfl, rfl, rfl, rfl, ?_⟩
  simp only [RiskEngine.calculate_risk_metrics, RiskSpec.sharpe,
    RiskSpec.volatility, RiskSpec.mean_annual, RiskEngine.TRADING_DAYS,
    RiskEngine.RISK_FREE_RATE]
  have hvol : 0 ≤ sq (npVar r) * sq 252 := mul_nonneg hstd hann
  rcases eq_or_lt_of_le hvol with heq | hlt
  · rw [if_neg (by rw [← heq]; exact lt_irrefl 0), if_pos heq.symm]
  · rw [if_pos hlt, if_neg (ne_of_gt hlt)]

theorem claim_C1_witness :
    (RiskEngine.calculate_risk_metrics id c1_returns).volatility =
      round2 (RiskSpec.volatility id c1_returns * 100) :=
  (claim_C1_risk_metrics_formulas id c1_returns (by decide)
    (by with_unfolding_all decide) (by with_unfolding_all decide)).1

/-- C2: two calls to `RiskEngine.calculate_monte_carlo` with identical
histories, weights, simulation count and horizon give bit-identical results
(the same percentile bands at every day, the same terminal var/cvar figures
and the same terminal-distribution sample), whatever the state `g1`, `g2` of
the global RNG at entry: `np.random.seed(42)` makes the result a function of
the inputs alone. -/
theorem claim_C2_monte_carlo_deterministic (sq lg ex : ℚ → ℚ)
    (gauss : RiskEngine.RNGState → ℕ → ℚ)
    (choiceFn : RiskEngine.RNGState → ℕ → ℕ → List ℕ)
    (histories : Histories) (weights : Weights) (simulations horizon : ℕ)
    (g1 g2 : RiskEngine.RNGState) :
    RiskEngine.calculate_monte_carlo sq lg ex gauss choiceFn histories weights
      simulations horizon g1 =
    RiskEngine.calculate_monte_carlo sq lg ex gauss choiceFn histories weights
      simulations horizon g2 := rfl

/-- C3: `RiskEngine.calculate_portfolio_returns` fails (returns `none`, the
`InsufficientData` signal, never a default series) exactly when no eligible
instrument remains or the common aligned length is under 20; otherwise it
returns the weighted sum of the per-instrument log-return series under
weights renormalized to sum to one; the cash sentinel and instruments
missing from the histories are excluded (adding them changes nothing). -/
theorem claim_C3_portfolio_returns (lg : ℚ → ℚ) (histories : Histories)
    (weights : Weights) :
    (RiskEngine.calculate_portfolio_returns lg histories weights = none ↔
      RiskEngine.eligible histories weights = [] ∨
      RiskEngine.minCommonLen histories (RiskEngine.eligible histories weights) < 20) ∧
    (∀ rs, RiskEngine.calculate_portfolio_returns lg histories weights = some rs →
      rs = RiskEngine.dotRows
        (RiskEngine.normalize ((RiskEngine.eligible histories weights).map fun p => p.2))
        ((RiskEngine.eligible histories weights).map fun p =>
          RiskEngine.calculate_returns lg (RiskEngine.closes histories p.1
            (RiskEngine.minCommonLen histories (RiskEngine.eligible histories weights))))) ∧
    (∀ c : ℚ,
      RiskEngine.calculate_portfolio_returns lg histories (("CASH", c) :: weights) =
        RiskEngine.calculate_portfolio_returns lg histories weights) ∧
    (∀ (t : String) (c : ℚ), RiskEngine.hGet histories t = [] →
      RiskEngine.calculate_portfolio_returns lg histories ((t, c) :: weights) =
        RiskEngine.calculate_portfolio_returns lg histories weights) := by
  have hcongr : ∀ w1 w2 : Weights,
      RiskEngine.eligible histories w1 = RiskEngine.eligible histories w2 →
      RiskEngine.calculate_portfolio_returns lg histories w1 =
        RiskEngine.calculate_portfolio_returns lg histories w2 := by
    intro w1 w2 he
    unfold RiskEngine.calculate_portfolio_returns
    rw [he]
  refine ⟨?_, ?_, ?_, ?_⟩
  · rcases helig : RiskEngine.eligible histories weights with _ | ⟨e, es⟩
    · simp [RiskEngine.calculate_portfolio_returns, helig]
    · simp only [RiskEngine.calculate_portfolio_returns, helig]
      by_cases hn : RiskEngine.minCommonLen histories (e :: es) < 20
      · simp [hn]
      · simp [hn]
  · intro rs hrs
    rcases helig : RiskEngine.eligible histories weights with _ | ⟨e, es⟩
    · simp [RiskEngine.calculate_portfolio_returns, helig] at hrs
    · simp only [RiskEngine.calculate_portfolio_returns, helig] at hrs
      by_cases hn : RiskEngine.minCommonLen histories (e :: es) < 20
      · simp [hn] at hrs
      · simp only [if_neg hn, Option.some_inj] at hrs
        exact hrs.symm
  · intro c
    apply hcongr
    simp [RiskEngine.eligible, List.filter_cons]
  · intro t c hmiss
    apply hcongr
    simp [RiskEngine.eligible, List.filter_cons, hmiss]

theorem claim_C3_witness :
    RiskEngine.calculate_portfolio_returns id c8_histories c8_weights_good = none ↔
      RiskEngine.eligible c8_histories c8_weights_good = [] ∨
      RiskEngine.minCommonLen c8_histories
        (RiskEngine.eligible c8_histories c8_weights_good) < 20 :=
  (claim_C3_portfolio_returns id c8_histories c8_weights_good).1

/-! ### Helper lemmas for the drawdown sign claims -/

theorem scanMul_length (a : ℚ) (l : List ℚ) : (scanMul a l).length = l.length := by
  induction l generalizing a with
  | nil => rfl
  | cons x xs ih => simp [scanMul, ih]

theorem scanMax_length (a : ℚ) (l : List ℚ) : (scanMax a l).length = l.length := by
  induction l generalizing a with
  | nil => rfl
  | cons x xs ih => simp [scanMax, ih]

theorem runningMax_length (l : List ℚ) : (runningMax l).length = l.length :=
  scanMax_length _ _

theorem listMin_nonpos {l : List ℚ} (hne : l ≠ []) (h : ∀ z ∈ l, z ≤ 0) :
    listMin l ≤ 0 := by
  rcases l with _ | ⟨z, zs⟩
  · exact absurd rfl hne
  · exact le_trans (listMin_le_head z zs) (h z (List.mem_cons_self z zs))

theorem drawdown_list_nonpos (r : List ℚ) (hfac : ∀ x ∈ r, -1 < x) :
    ∀ z ∈ List.zipWith (fun c p => (c - p) / p) (scanMul 1 (r.map (1 + ·)))
      (runningMax (scanMul 1 (r.map (1 + ·)))), z ≤ 0 := by
  unfold runningMax
  apply zip_scanMax_nonpos
  apply scanMul_pos _ 1 one_pos
  intro y hy
  rcases List.mem_map.mp hy with ⟨x, hx, rfl⟩
  have := hfac x hx
  linarith

theorem drawdown_list_length (r : List ℚ) :
    (List.zipWith (fun c p => (c - p) / p) (scanMul 1 (r.map (1 + ·)))
      (runningMax (scanMul 1 (r.map (1 + ·))))).length = r.length := by
  simp [List.length_zipWith, scanMul_length, runningMax_length]

theorem risk_max_dd_nonneg (sq : ℚ → ℚ) (r : List ℚ) (hr : r ≠ [])
    (hfac : ∀ x ∈ r, -1 < x) :
    0 ≤ (RiskEngine.calculate_risk_metrics sq r).max_drawdown := by
  apply round2_nonneg
  have hne : (List.zipWith (fun c p => (c - p) / p) (scanMul 1 (r.map (1 + ·)))
      (runningMax (scanMul 1 (r.map (1 + ·))))) ≠ [] := by
    rw [← List.length_pos, drawdown_list_length]
    exact List.length_pos.mpr hr
  have hmin := listMin_nonpos hne (drawdown_list_nonpos r hfac)
  linarith

theorem risk_cur_dd_nonneg (sq : ℚ → ℚ) (r : List ℚ)
    (hfac : ∀ x ∈ r, -1 < x) :
    0 ≤ (RiskEngine.calculate_risk_metrics sq r).current_drawdown := by
  apply round2_nonneg
  have hdd := drawdown_list_nonpos r hfac
  set D := List.zipWith (fun c p => (c - p) / p) (scanMul 1 (r.map (1 + ·)))
    (runningMax (scanMul 1 (r.map (1 + ·)))) with hD
  show 0 ≤ (if 0 < D.length then -((D.getLast?).getD 0) else 0) * 100
  by_cases hL : 0 < D.length
  · rw [if_pos hL]
    rcases hlast : D.getLast? with _ | z
    · simp
    · have hz := hdd z (getLast?_mem hlast)
      simp only [Option.getD_some]
      linarith
  · rw [if_neg hL]
    norm_num

theorem gips_max_dd_nonpos (values : List ℚ) (dates : List GDate) :
    (GIPSService.calculate_drawdown_series values dates).2.1 ≤ 0 := by
  rcases values with _ | ⟨v0, vs⟩
  · simp [GIPSService.calculate_drawdown_series]
  · show round2 ((GIPSService.ddGo (dates.zip (v0 :: vs)) v0 0).2 * 100) ≤ 0
    apply round2_nonpos
    have := ddGo_mdd_le (dates.zip (v0 :: vs)) v0 0
    linarith

theorem gips_cur_dd_nonpos (values : List ℚ) (dates : List GDate) :
    (GIPSService.calculate_drawdown_series values dates).2.2 ≤ 0 := by
  rcases values with _ | ⟨v0, vs⟩
  · simp [GIPSService.calculate_drawdown_series]
  · show (((GIPSService.ddGo (dates.zip (v0 :: vs)) v0 0).1.getLast?).map
      (fun p => p.drawdown)).getD 0 ≤ 0
    rcases hlast : (GIPSService.ddGo (dates.zip (v0 :: vs)) v0 0).1.getLast? with _ | pt
    · simp
    · have hpt := ddGo_points_nonpos (dates.zip (v0 :: vs)) v0 0 pt
        (getLast?_mem hlast)
      simpa using hpt

/-- C10 (amended): `GIPSService.calculate_drawdown_series` reports
max_drawdown and current_drawdown as non-positive percentages (raw drawdown
values) for every value series; `RiskEngine.calculate_risk_metrics` reports
them as non-negative percentages (negated drawdowns) provided every return
exceeds -1, so that the cumulative-product curve stays positive. A return
≤ -1 (a one-day loss of more than 100% of the compounded value, attainable
as a log return) makes the running peak negative and the engine reports a
negative current_drawdown, see the counterexample. -/
theorem claim_C10_drawdown_sign_conventions (sq : ℚ → ℚ) (r : List ℚ)
    (values : List ℚ) (dates : List GDate) (hr : r ≠ []) :
    ((∀ x ∈ r, -1 < x) →
      0 ≤ (RiskEngine.calculate_risk_metrics sq r).max_drawdown ∧
      0 ≤ (RiskEngine.calculate_risk_metrics sq r).current_drawdown) ∧
    (GIPSService.calculate_drawdown_series values dates).2.1 ≤ 0 ∧
    (GIPSService.calculate_drawdown_series values dates).2.2 ≤ 0 :=
  ⟨fun hfac => ⟨risk_max_dd_nonneg sq r hr hfac, risk_cur_dd_nonneg sq r hfac⟩,
   gips_max_dd_nonpos values dates, gips_cur_dd_nonpos values dates⟩

/-- C10 counterexample: on the return series [-2, 1] the cumulative curve is
[-1, -2], the running peak is [-1, -1], the drawdown series is [0, 1], and
`calculate_risk_metrics` reports current_drawdown = -100, a negative value:
the claimed non-negative convention fails for returns ≤ -1. -/
theorem claim_C10_counterexample :
    (RiskEngine.calculate_risk_metrics id c10cex_returns).current_drawdown < 0 := by
  with_unfolding_all decide

theorem claim_C10_witness :
    0 ≤ (RiskEngine.calculate_risk_metrics id c10_returns).max_drawdown :=
  ((claim_C10_drawdown_sign_conventions id c10_returns c10_values c10_dates
    (by decide)).1 (by with_unfolding_all decide)).1

/-- C7 (amended): for every return series with at least 20 samples that is
not all-identical, the reported risk metrics satisfy var_99 ≥ var_95 and
cvar_95 ≥ var_95; additionally var_95 ≥ 0 whenever the 5th percentile of the
returns is ≤ 0 (non-degeneracy alone does not make var_95 ≥ 0: a series of
all-positive returns has a positive 5th percentile and hence var_95 < 0,
see the counterexample). The hypothesis 0 ≤ sq 252 holds for the real
np.sqrt. -/
theorem claim_C7_var_ordering (sq : ℚ → ℚ) (r : List ℚ) (hann : 0 ≤ sq 252)
    (hlen : 20 ≤ r.length) (hnd : ¬ allSame r) :
    (RiskEngine.calculate_risk_metrics sq r).var_95 ≤
      (RiskEngine.calculate_risk_metrics sq r).var_99 ∧
    (RiskEngine.calculate_risk_metrics sq r).var_95 ≤
      (RiskEngine.calculate_risk_metrics sq r).cvar_95 ∧
    (percentile r 5 ≤ 0 → 0 ≤ (RiskEngine.calculate_risk_metrics sq r).var_95) := by
  have hne : r ≠ [] := by
    intro h
    rw [h] at hlen
    simp at hlen
  have hann' : 0 ≤ sq RiskEngine.TRADING_DAYS := hann
  refine ⟨?_, ?_, ?_⟩
  · apply round2_mono
    have h15 : percentile r 1 ≤ percentile r 5 :=
      percentile_mono hne (by norm_num) (by norm_num) (by norm_num)
    have h1 : -(percentile r 5) * sq RiskEngine.TRADING_DAYS ≤
        -(percentile r 1) * sq RiskEngine.TRADING_DAYS :=
      mul_le_mul_of_nonneg_right (neg_le_neg h15) hann'
    exact mul_le_mul_of_nonneg_right h1 (by norm_num)
  · apply round2_mono
    have hmean : npMean (r.filter fun x => x ≤ percentile r 5) ≤ percentile r 5 :=
      mean_tail_le_percentile hne (by norm_num) (by norm_num)
    have h1 : -(percentile r 5) * sq RiskEngine.TRADING_DAYS ≤
        -(npMean (r.filter fun x => x ≤ percentile r 5)) * sq RiskEngine.TRADING_DAYS :=
      mul_le_mul_of_nonneg_right (neg_le_neg hmean) hann'
    exact mul_le_mul_of_nonneg_right h1 (by norm_num)
  · intro hp5
    apply round2_nonneg
    have h1 : 0 ≤ -(percentile r 5) * sq RiskEngine.TRADING_DAYS :=
      mul_nonneg (neg_nonneg.mpr hp5) hann'
    exact mul_nonneg h1 (by norm_num)

/-- C7 counterexample: the claim asserts var_95 ≥ 0 for every non-degenerate
series of ≥ 20 samples, but for the all-positive series c7_returns the 5th
percentile is positive and the reported var_95 is negative (evaluated at
sq := id; the sign of var_95 does not depend on the interpretation of sqrt,
which only contributes the positive factor sqrt(252)). -/
theorem claim_C7_counterexample :
    20 ≤ c7_returns.length ∧ ¬ allSame c7_returns ∧
    (RiskEngine.calculate_risk_metrics id c7_returns).var_95 < 0 :=
  ⟨by decide, by with_unfolding_all decide, by with_unfolding_all decide⟩

theorem claim_C7_witness :
    (RiskEngine.calculate_risk_metrics id c7w_returns).var_95 ≤
      (RiskEngine.calculate_risk_metrics id c7w_returns).var_99 :=
  (claim_C7_var_ordering id c7w_returns (by with_unfolding_all decide)
    (by decide) (by with_unfolding_all decide)).1

/-- C8 (amended): after exclusion of cash and of instruments missing from the
histories, the renormalized weights used internally sum to exactly 1 provided
the eligible weights do not sum to zero. (calculate_portfolio_returns,
calculate_risk_contributions and _get_aligned_returns_with_dates all use
`normalize` on `eligible`; when the eligible weights sum to zero the
renormalization divides by zero and the invariant fails, see the
counterexample.) -/
theorem claim_C8_weights_sum_one (histories : Histories) (weights : Weights)
    (hsum : ((RiskEngine.eligible histories weights).map fun p => p.2).sum ≠ 0) :
    (RiskEngine.normalize
      ((RiskEngine.eligible histories weights).map fun p => p.2)).sum = 1 := by
  unfold RiskEngine.normalize
  rw [sum_map_div]
  exact div_self hsum

/-- C8 counterexample: a fully-hedged weight map (+1 and -1) has eligible weights
summing to zero, and the internally used weights do not sum to 1. -/
theorem claim_C8_counterexample :
    (RiskEngine.normalize
      ((RiskEngine.eligible c8_histories c8_weights_bad).map fun p => p.2)).sum ≠ 1 := by
  with_unfolding_all decide

theorem claim_C8_witness :
    (RiskEngine.normalize
      ((RiskEngine.eligible c8_histories c8_weights_good).map fun p => p.2)).sum = 1 :=
  claim_C8_weights_sum_one c8_histories c8_weights_good (by with_unfolding_all decide)

/-- C9 (amended): for a price sequence of length n ≥ 2,
`RiskEngine.calculate_returns` returns a sequence of length n-1 with
r[i] = log(price[i+1]/price[i]); for n < 2 it returns the empty sequence as a
plain value rather than failing with InsufficientData (the function has no
failure path; the minimum-sample guard lives in its callers). -/
theorem claim_C9_calculate_returns (lg : ℚ → ℚ) (prices : List ℚ) :
    (RiskEngine.calculate_returns lg prices).length = prices.length - 1 ∧
    (∀ i, i + 1 < prices.length →
      (RiskEngine.calculate_returns lg prices).getD i 0 =
        lg (prices.getD (i + 1) 0 / prices.getD i 0)) ∧
    (prices.length < 2 → RiskEngine.calculate_returns lg prices = []) := by
  refine ⟨calculate_returns_length lg prices,
    fun i h => calculate_returns_getD lg prices i h, fun hshort => ?_⟩
  have hlen := calculate_returns_length lg prices
  have : (RiskEngine.calculate_returns lg prices).length = 0 := by omega
  exact List.length_eq_zero.mp this

/-- C9 counterexample: a length-1 price sequence yields the ordinary empty
return series, not an InsufficientData failure. -/
theorem claim_C9_counterexample :
    RiskEngine.calculate_returns (fun x => x) [1] = [] := rfl

theorem claim_C9_witness :
    (RiskEngine.calculate_returns (fun x : ℚ => x) [2, 4]).getD 0 0 =
      (fun x : ℚ => x) (([2, 4] : List ℚ).getD 1 0 / ([2, 4] : List ℚ).getD 0 0) :=
  (claim_C9_calculate_returns (fun x : ℚ => x) [2, 4]).2.1 0 (by norm_num)

/-- C4: for every aligned portfolio return series of length n ≥ W+1,
`RiskEngine.backtest_var` with window W and confidence c computes, for each
index i from W to n-1, a predicted VaR as the negated (1-c)*100 percentile of
returns[i-W:i]; a breach is counted exactly when the reported realized return
is below the negated reported predicted VaR; breaches is the number of such
indices, and breach_rate is breaches divided by the number of evaluated
indices, times 100 (rounded at the boundary like every reported figure). -/
theorem claim_C4_backtest (lg : ℚ → ℚ) (histories : Histories)
    (weights : Weights) (window : ℕ) (confidence : ℚ) (returns : List ℚ)
    (dates : List GDate)
    (halign : RiskEngine.get_aligned_returns_with_dates lg histories weights =
      some (returns, dates))
    (hlen : window + 1 ≤ returns.length) :
    RiskEngine.backtest_var lg histories weights window confidence =
      some (RiskEngine.backtest_core returns dates window confidence) ∧
    (RiskEngine.backtest_core returns dates window confidence).predicted_var =
      ((List.range (returns.length - window)).map fun j =>
        round2 (-(percentile ((returns.drop j).take window)
          ((1 - confidence) * 100)) * 100)) ∧
    (RiskEngine.backtest_core returns dates window confidence).realized_returns =
      ((List.range (returns.length - window)).map fun j =>
        round2 (returns.getD (window + j) 0 * 100)) ∧
    (RiskEngine.backtest_core returns dates window confidence).breaches =
      ((List.range (returns.length - window)).filter fun j =>
        round2 (returns.getD (window + j) 0 * 100) <
          -(round2 (-(percentile ((returns.drop j).take window)
            ((1 - confidence) * 100)) * 100))).length ∧
    (RiskEngine.backtest_core returns dates window confidence).breach_rate =
      round2 (((RiskEngine.backtest_core returns dates window confidence).breaches : ℚ) /
        ((returns.length - window : ℕ) : ℚ) * 100) := by
  have hbt := btGo_eq returns dates window ((1 - confidence) * 100)
    (returns.length - window) window
  simp only [Nat.add_sub_cancel_left] at hbt
  have hk : 1 ≤ returns.length - window := by omega
  refine ⟨?_, ?_, ?_, ?_, ?_⟩
  · simp only [RiskEngine.backtest_var, halign]
    rw [if_neg (by omega : ¬ returns.length < window + 1)]
  · simp only [RiskEngine.backtest_core]
    rw [hbt]
  · simp only [RiskEngine.backtest_core]
    rw [hbt]
  · simp only [RiskEngine.backtest_core]
    rw [hbt]
    exact filter_zip_map_length (List.range (returns.length - window)) _ _
  · simp only [RiskEngine.backtest_core]
    rw [hbt]
    have hne : ((List.range (returns.length - window)).map fun j =>
        round2 (returns.getD (window + j) 0 * 100)).isEmpty = false := by
      rw [List.isEmpty_eq_false]
      simp only [ne_eq, List.map_eq_nil, List.range_eq_nil]
      omega
    simp only [hne, Bool.false_eq_true, if_false, List.length_map,
      List.length_range]

set_option maxRecDepth 4000 in
theorem claim_C4_witness :
    RiskEngine.backtest_var id c4_histories c4_weights 20 (19/20) =
      some (RiskEngine.backtest_core c4_returns c4_dates 20 (19/20)) :=
  (claim_C4_backtest id c4_histories c4_weights 20 (19/20) c4_returns c4_dates
    (by with_unfolding_all decide) (by decide)).1

/-- C6: for every eligible instrument set with ≥ 20 common samples,
`RiskEngine.calculate_risk_contributions` produces exactly the records of the
spec formulas (Sigma = cov*252 over renormalized weights,
portfolio_vol = sqrt(w' Sigma w), marginal_var = (Sigma w)/portfolio_vol,
component_var = w*marginal, both z-scaled in the reported fields,
pct_contribution = component/portfolio_vol*100), as a permutation sorted
descending by pct_contribution. -/
theorem claim_C6_risk_contributions (sq : ℚ → ℚ) (zscore : ℚ) (lg : ℚ → ℚ)
    (histories : Histories) (weights : Weights) (e : String × ℚ)
    (es : List (String × ℚ))
    (helig : RiskEngine.eligible histories weights = e :: es)
    (hlen : ¬ RiskEngine.minCommonLen histories (e :: es) < 20) :
    (∀ (rows : List (List ℚ)) (tickers : List String) (ws : List ℚ),
      RiskEngine.contribution_entries sq zscore rows tickers ws =
        RiskSpec.contributions sq zscore rows tickers ws) ∧
    (RiskEngine.calculate_risk_contributions sq zscore lg histories weights).Perm
      (RiskSpec.contributions sq zscore
        ((e :: es).map fun p => RiskEngine.calculate_returns lg
          (RiskEngine.closes histories p.1
            (RiskEngine.minCommonLen histories (e :: es))))
        ((e :: es).map fun p => p.1)
        (RiskEngine.normalize ((e :: es).map fun p => p.2))) ∧
    (RiskEngine.calculate_risk_contributions sq zscore lg histories
      weights).Pairwise RiskEngine.contribDesc := by
  have hentry : ∀ (rows : List (List ℚ)) (tickers : List String) (ws : List ℚ),
      RiskEngine.contribution_entries sq zscore rows tickers ws =
        RiskSpec.contributions sq zscore rows tickers ws := fun _ _ _ => rfl
  have hcalc : RiskEngine.calculate_risk_contributions sq zscore lg histories weights =
      List.insertionSort RiskEngine.contribDesc
        (RiskEngine.contribution_entries sq zscore
          ((e :: es).map fun p => RiskEngine.calculate_returns lg
            (RiskEngine.closes histories p.1
              (RiskEngine.minCommonLen histories (e :: es))))
          ((e :: es).map fun p => p.1)
          (RiskEngine.normalize ((e :: es).map fun p => p.2))) := by
    simp only [RiskEngine.calculate_risk_contributions, helig, if_neg hlen]
  refine ⟨hentry, ?_, ?_⟩
  · rw [hcalc, ← hentry]
    exact List.perm_insertionSort _ _
  · rw [hcalc]
    exact List.sorted_insertionSort _ _

theorem claim_C6_witness :
    (RiskEngine.calculate_risk_contributions id 1 id c6_histories
      c6_weights).Pairwise RiskEngine.contribDesc :=
  (claim_C6_risk_contributions id 1 id c6_histories c6_weights ("A", 3/5)
    [("B", 2/5)] (by with_unfolding_all decide) (by decide)).2.2

theorem getD_pos_of_mem {l : List ℚ} (h : ∀ v ∈ l, 0 < v) {i : ℕ}
    (hi : i < l.length) : 0 < l.getD i 0 := by
  rw [List.getD_eq_get? , List.get?_eq_get hi]
  exact h _ (List.get_mem l i hi)

theorem headD_eq_getD_zero (l : List ℚ) : l.headD 0 = l.getD 0 0 := by
  cases l <;> simp

theorem periodGo_flatten (pv : List ℚ) (pd : List GDate) (bench : List ℚ)
    (fee : ℚ) :
    ∀ (blocks : List (List GDate)) (i : ℕ) (curKey : ℕ × ℕ) (startIdx : ℕ)
      (acc : List GIPSService.GIPSPeriodReturn),
      (∀ b ∈ blocks, b ≠ []) →
      (∀ b ∈ blocks, ∀ d ∈ b, GIPSService.monthKey d = GIPSService.blockKey b) →
      GIPSService.keysChain curKey blocks →
      GIPSService.periodGo pv pd bench fee blocks.flatten i curKey startIdx acc =
        acc ++ GIPSService.emitBlocks pv pd bench fee blocks i curKey startIdx := by
  intro blocks
  induction blocks with
  | nil =>
      intro i curKey startIdx acc _ _ _
      show (if startIdx + 1 < pv.length then
          acc ++ [GIPSService.mkPeriodLast pv pd bench fee startIdx curKey]
        else acc) = acc ++ (if startIdx + 1 < pv.length then
          [GIPSService.mkPeriodLast pv pd bench fee startIdx curKey] else [])
      by_cases h : startIdx + 1 < pv.length
      · rw [if_pos h, if_pos h]
      · rw [if_neg h, if_neg h, List.append_nil]
  | cons b rest ih =>
      intro i curKey startIdx acc hne hconst hchain
      obtain ⟨hkb, hchain2⟩ := hchain
      rcases b with _ | ⟨d, ds⟩
      · exact absurd rfl (hne [] (List.mem_cons_self [] rest))
      have hds : ∀ x ∈ ds, GIPSService.monthKey x = GIPSService.monthKey d := by
        intro x hx
        exact hconst (d :: ds) (List.mem_cons_self _ _) x (List.mem_cons_of_mem d hx)
      simp only [List.flatten_cons, List.cons_append, GIPSService.periodGo,
        List.append_eq]
      rw [if_neg (show ¬ GIPSService.monthKey d = curKey from hkb)]
      rw [periodGo_skip pv pd bench fee ds rest.flatten (GIPSService.monthKey d) i
        (acc ++ [GIPSService.mkPeriod pv pd bench fee startIdx i curKey]) hds (i + 1)]
      rw [ih (i + 1 + ds.length) (GIPSService.monthKey d) i
        (acc ++ [GIPSService.mkPeriod pv pd bench fee startIdx i curKey])
        (fun x hx => hne x (List.mem_cons_of_mem _ hx))
        (fun x hx => hconst x (List.mem_cons_of_mem _ hx))
        (show GIPSService.keysChain (GIPSService.monthKey d) rest from hchain2)]
      show (acc ++ [GIPSService.mkPeriod pv pd bench fee startIdx i curKey]) ++
          GIPSService.emitBlocks pv pd bench fee rest (i + 1 + ds.length)
            (GIPSService.monthKey d) i =
        acc ++ (GIPSService.mkPeriod pv pd bench fee startIdx i curKey ::
          GIPSService.emitBlocks pv pd bench fee rest (i + (d :: ds).length)
            (GIPSService.blockKey (d :: ds)) i)
      rw [show i + 1 + ds.length = i + (d :: ds).length from by
        simp only [List.length_cons]; omega]
      rw [show GIPSService.blockKey (d :: ds) = GIPSService.monthKey d from rfl]
      simp [List.append_assoc]

/-- C5 (amended): `GIPSService.calculate_period_returns` groups consecutive
observations into (year, month) runs; every completed month (each run before
a key change, in any series) is reported with gross return end/start - 1
over the values of that month and net return gross - fee_bps/10000/252 times
the observations in the month; the final month is reported by the same
formula over its available days only when it contains at least two
observations — a final month with a single observation is dropped by the
source guard month_start_idx < len(portfolio_values) - 1, contrary to the
claim's "(if any)", see the counterexample. For a series spanning exactly
one month the single reported record's gross TWR is the geometric product
of the daily growth factors minus 1. -/
theorem claim_C5_gips_period_returns :
    (∀ (pv : List ℚ) (b0 : List GDate) (rest : List (List GDate))
      (bench : List ℚ) (fee : ℚ),
      pv ≠ [] → b0 ≠ [] → (∀ b ∈ rest, b ≠ []) →
      (∀ d ∈ b0, GIPSService.monthKey d = GIPSService.blockKey b0) →
      (∀ b ∈ rest, ∀ d ∈ b, GIPSService.monthKey d = GIPSService.blockKey b) →
      GIPSService.keysChain (GIPSService.blockKey b0) rest →
      GIPSService.calculate_period_returns pv ((b0 :: rest).flatten) bench fee =
        GIPSService.emitBlocks pv ((b0 :: rest).flatten) bench fee rest
          b0.length (GIPSService.blockKey b0) 0) ∧
    (∀ (pv : List ℚ) (pd : List GDate) (bench : List ℚ) (fee : ℚ)
      (startIdx i : ℕ) (key : ℕ × ℕ), 0 < pv.getD startIdx 0 →
      (GIPSService.mkPeriod pv pd bench fee startIdx i key).twr_gross =
        round2 ((pv.getD (i - 1) 0 / pv.getD startIdx 0 - 1) * 100) ∧
      (GIPSService.mkPeriod pv pd bench fee startIdx i key).twr_net =
        round2 ((pv.getD (i - 1) 0 / pv.getD startIdx 0 - 1 -
          fee / 10000 / 252 * ((i - startIdx : ℕ) : ℚ)) * 100)) ∧
    (∀ (pv : List ℚ) (pd : List GDate) (bench : List ℚ) (fee : ℚ)
      (startIdx : ℕ) (key : ℕ × ℕ), 0 < pv.getD startIdx 0 →
      (GIPSService.mkPeriodLast pv pd bench fee startIdx key).twr_gross =
        round2 (((pv.getLast?).getD 0 / pv.getD startIdx 0 - 1) * 100) ∧
      (GIPSService.mkPeriodLast pv pd bench fee startIdx key).twr_net =
        round2 (((pv.getLast?).getD 0 / pv.getD startIdx 0 - 1 -
          fee / 10000 / 252 * ((pv.length - startIdx : ℕ) : ℚ)) * 100)) ∧
    (∀ (pv : List ℚ) (pd : List GDate) (bench : List ℚ) (fee : ℚ)
      (key : ℕ × ℕ), pv ≠ [] → (∀ v ∈ pv, 0 < v) →
      (GIPSService.mkPeriodLast pv pd bench fee 0 key).twr_gross =
        round2 (((daily_factors pv).prod - 1) * 100)) := by
  refine ⟨?_, ?_, ?_, ?_⟩
  · intro pv b0 rest bench fee hpv hb0 hne hk0 hconst hchain
    rcases b0 with _ | ⟨d0, ds0⟩
    · exact absurd rfl hb0
    have hds0 : ∀ x ∈ ds0, GIPSService.monthKey x = GIPSService.monthKey d0 := by
      intro x hx
      exact hk0 x (List.mem_cons_of_mem d0 hx)
    unfold GIPSService.calculate_period_returns
    rw [if_neg (by simp [hpv])]
    show GIPSService.periodGo pv (((d0 :: ds0) :: rest).flatten) bench fee
      (ds0 ++ rest.flatten) 1 (GIPSService.monthKey d0) 0 [] = _
    rw [periodGo_skip pv (((d0 :: ds0) :: rest).flatten) bench fee ds0
      rest.flatten (GIPSService.monthKey d0) 0 [] hds0 1]
    rw [periodGo_flatten pv (((d0 :: ds0) :: rest).flatten) bench fee rest
      (1 + ds0.length) (GIPSService.monthKey d0) 0 [] hne hconst
      (show GIPSService.keysChain (GIPSService.monthKey d0) rest from hchain)]
    show GIPSService.emitBlocks pv (((d0 :: ds0) :: rest).flatten) bench fee
        rest (1 + ds0.length) (GIPSService.monthKey d0) 0 =
      GIPSService.emitBlocks pv (((d0 :: ds0) :: rest).flatten) bench fee rest
        ((d0 :: ds0).length) (GIPSService.blockKey (d0 :: ds0)) 0
    rw [show (1 : ℕ) + ds0.length = (d0 :: ds0).length from by
      simp only [List.length_cons]; omega]
    rw [show GIPSService.blockKey (d0 :: ds0) = GIPSService.monthKey d0 from rfl]
  · intro pv pd bench fee startIdx i key hstart
    constructor
    · simp only [GIPSService.mkPeriod, if_pos hstart, GIPSService.TRADING_DAYS]
    · simp only [GIPSService.mkPeriod, if_pos hstart, GIPSService.TRADING_DAYS]
  · intro pv pd bench fee startIdx key hstart
    constructor
    · simp only [GIPSService.mkPeriodLast, if_pos hstart, GIPSService.TRADING_DAYS]
    · simp only [GIPSService.mkPeriodLast, if_pos hstart, GIPSService.TRADING_DAYS]
  · intro pv pd bench fee key hne hpos
    have hstart : 0 < pv.getD 0 0 :=
      getD_pos_of_mem hpos (List.length_pos.mpr hne)
    have hprod := prod_daily_factors pv hne (fun v hv => ne_of_gt (hpos v hv))
    have hhead := headD_eq_getD_zero pv
    simp only [GIPSService.mkPeriodLast, if_pos hstart]
    rw [hprod, hhead]

/-- C5 counterexample: with observations on Jan 1, Jan 2 and Feb 1, the
final (February) month has a single observation; the claim says the final
partial month, if any, is reported over its available days, but the engine
emits only the January record — no (2024, 2) period appears in the output. -/
theorem claim_C5_counterexample :
    ((GIPSService.calculate_period_returns c5cex_values c5cex_dates [] 50).map
      fun rec => rec.period) = [(2024, 1)] := by
  with_unfolding_all decide

theorem claim_C5_witness :
    GIPSService.calculate_period_returns c5w_values
      ((c5w_b0 :: [c5w_b1]).flatten) [] 50 =
      GIPSService.emitBlocks c5w_values ((c5w_b0 :: [c5w_b1]).flatten) [] 50
        [c5w_b1] c5w_b0.length (GIPSService.blockKey c5w_b0) 0 :=
  claim_C5_gips_period_returns.1 c5w_values c5w_b0 [c5w_b1] [] 50 (by decide)
    (by decide) (by decide) (by decide) (by decide) (by decide)
